import Mathlib

/-!
# Verification of the authentication rate limiter and authenticator

A shallow embedding of the credential-authentication subsystem:

* `src/lib/rate-limiter.ts` — the in-memory sliding-window rate limiter
  (`isRateLimited`, `recordFailedAttempt`, `recordSuccessfulAttempt`,
  `getTimeUntilUnblocked`, `cleanupRateLimit`);
* `src/api/modules/user/user.service.ts` — `authenticateUser` with its
  timing-attack mitigation (dummy hash);
* `src/api/modules/user/user.route.ts` — the `authenticate` procedure that
  wires the rate limiter around `authenticateUser`.

Timestamps and durations are `Int` milliseconds (JavaScript `Date.now()`
values and arithmetic on them).  The global `Map<string, RateLimitEntry>`
is modelled as an association list with unique keys, reads returning the
first matching entry.  JavaScript truthiness of `entry.blockedUntil`
(where the number `0` is falsy) is modelled explicitly wherever the source
relies on it.
-/

/-- `RateLimitEntry` from `rate-limiter.ts`: failures counted in the current
window, the time of the last recorded failure, and the optional block
expiry time. -/
structure RateLimitEntry where
  attempts : Nat
  lastAttempt : Int
  blockedUntil : Option Int
deriving DecidableEq, Repr

/-- `RateLimitConfig` from `rate-limiter.ts`. -/
structure RateLimitConfig where
  maxAttempts : Nat
  windowMs : Int
  blockDurationMs : Int
deriving DecidableEq, Repr

/-- `DEFAULT_CONFIG`: 5 attempts, 15-minute window, 30-minute block. -/
def DEFAULT_CONFIG : RateLimitConfig := ⟨5, 15 * 60 * 1000, 30 * 60 * 1000⟩

/-- The rate-limit store: `Map<string, RateLimitEntry>` as an association
list, lookups returning the first entry with the given key. -/
abbrev Store : Type := List (String × RateLimitEntry)

/-- `rateLimitStore.get(identifier)`. -/
def storeGet : Store → String → Option RateLimitEntry
  | [], _ => none
  | (k, e) :: rest, i => if k = i then some e else storeGet rest i

/-- `rateLimitStore.set(identifier, entry)`: replace the entry under the
key if present, otherwise append. -/
def storeSet : Store → String → RateLimitEntry → Store
  | [], i, e => [(i, e)]
  | (k, e') :: rest, i, e =>
    if k = i then (i, e) :: rest else (k, e') :: storeSet rest i e

/-- `rateLimitStore.delete(identifier)`. -/
def storeDelete : Store → String → Store
  | [], _ => []
  | (k, e) :: rest, i =>
    if k = i then storeDelete rest i else (k, e) :: storeDelete rest i

/-- The JavaScript condition `entry.blockedUntil && now < entry.blockedUntil`:
the field is present, nonzero (truthy) and in the future. -/
def blockActive : Option Int → Int → Bool
  | none, _ => false
  | some b, now => decide (b ≠ 0 ∧ now < b)

/-- `isRateLimited` from `rate-limiter.ts`.  Besides the boolean verdict it
returns the store after the call, because the source deletes the entry
when the window has passed (`rateLimitStore.delete(identifier)` inside the
read). -/
def isRateLimited (identifier : String) (cfg : RateLimitConfig) (now : Int)
    (s : Store) : Bool × Store :=
  match storeGet s identifier with
  | none => (false, s)
  | some entry =>
    if blockActive entry.blockedUntil now then
      (true, s)
    else if now - entry.lastAttempt > cfg.windowMs then
      (false, storeDelete s identifier)
    else
      (decide (entry.attempts ≥ cfg.maxAttempts), s)

/-- `recordFailedAttempt` from `rate-limiter.ts`: load or create the entry,
reset the counter if the window has passed, increment, stamp the time, and
set `blockedUntil` once the maximum is reached.  Note that a window reset
does not clear a previously set `blockedUntil`. -/
def recordFailedAttempt (identifier : String) (cfg : RateLimitConfig)
    (now : Int) (s : Store) : Store :=
  let entry := (storeGet s identifier).getD ⟨0, now, none⟩
  let attempts1 := if now - entry.lastAttempt > cfg.windowMs then 1
    else entry.attempts + 1
  let blocked1 := if attempts1 ≥ cfg.maxAttempts then
      some (now + cfg.blockDurationMs)
    else entry.blockedUntil
  storeSet s identifier ⟨attempts1, now, blocked1⟩

/-- `recordSuccessfulAttempt`: a success deletes the entry. -/
def recordSuccessfulAttempt (identifier : String) (s : Store) : Store :=
  storeDelete s identifier

/-- `getTimeUntilUnblocked`: `max(0, blockedUntil - now)`, or `0` when the
entry is absent or `blockedUntil` is falsy (`!entry?.blockedUntil`). -/
def getTimeUntilUnblocked (identifier : String) (now : Int) (s : Store) : Int :=
  match storeGet s identifier with
  | none => 0
  | some entry =>
    match entry.blockedUntil with
    | none => 0
    | some b => if b = 0 then 0 else max 0 (b - now)

/-- The eviction condition of `cleanupRateLimit`:
`(!entry.blockedUntil || now > entry.blockedUntil) && now - entry.lastAttempt > config.windowMs`. -/
def shouldEvict (cfg : RateLimitConfig) (now : Int) (e : RateLimitEntry) : Bool :=
  (match e.blockedUntil with
   | none => true
   | some b => decide (b = 0 ∨ now > b)) &&
  decide (now - e.lastAttempt > cfg.windowMs)

/-- `cleanupRateLimit`: delete every entry whose block (if any) has expired
and whose last attempt is older than the window. -/
def cleanupRateLimit (cfg : RateLimitConfig) (now : Int) : Store → Store
  | [] => []
  | (k, e) :: rest =>
    if shouldEvict cfg now e then cleanupRateLimit cfg now rest
    else (k, e) :: cleanupRateLimit cfg now rest

/-! ## Store lemmas -/

theorem storeGet_storeSet_self (s : Store) (i : String) (e : RateLimitEntry) :
    storeGet (storeSet s i e) i = some e := by
  induction s with
  | nil => simp [storeGet, storeSet]
  | cons p rest ih =>
    obtain ⟨k, e'⟩ := p
    by_cases h : k = i <;> simp [storeGet, storeSet, h, ih]

theorem storeGet_storeDelete_self (s : Store) (i : String) :
    storeGet (storeDelete s i) i = none := by
  induction s with
  | nil => simp [storeGet, storeDelete]
  | cons p rest ih =>
    obtain ⟨k, e'⟩ := p
    by_cases h : k = i <;> simp [storeGet, storeDelete, h, ih]

theorem mem_storeSet (s : Store) (i : String) (e : RateLimitEntry)
    (p : String × RateLimitEntry) (hp : p ∈ storeSet s i e) :
    p ∈ s ∨ p = (i, e) := by
  induction s with
  | nil => simpa [storeSet] using hp
  | cons q rest ih =>
    obtain ⟨k, e'⟩ := q
    by_cases h : k = i
    · simp only [storeSet, h, if_pos rfl] at hp
      rcases List.mem_cons.mp hp with h1 | h1
      · exact Or.inr h1
      · exact Or.inl (List.mem_cons_of_mem _ h1)
    · simp only [storeSet, if_neg h] at hp
      rcases List.mem_cons.mp hp with h1 | h1
      · exact Or.inl (h1 ▸ List.mem_cons_self _ _)
      · rcases ih h1 with h2 | h2
        · exact Or.inl (List.mem_cons_of_mem _ h2)
        · exact Or.inr h2

theorem mem_storeDelete (s : Store) (i : String)
    (p : String × RateLimitEntry) (hp : p ∈ storeDelete s i) : p ∈ s := by
  induction s with
  | nil => simp [storeDelete] at hp
  | cons q rest ih =>
    obtain ⟨k, e'⟩ := q
    by_cases h : k = i
    · simp only [storeDelete, h, if_pos rfl] at hp
      exact List.mem_cons_of_mem _ (ih hp)
    · simp only [storeDelete, if_neg h] at hp
      rcases List.mem_cons.mp hp with h1 | h1
      · exact h1 ▸ List.mem_cons_self _ _
      · exact List.mem_cons_of_mem _ (ih h1)

theorem mem_cleanup (cfg : RateLimitConfig) (now : Int) (s : Store)
    (p : String × RateLimitEntry) (hp : p ∈ cleanupRateLimit cfg now s) :
    p ∈ s := by
  induction s with
  | nil => simp [cleanupRateLimit] at hp
  | cons q rest ih =>
    obtain ⟨k, e⟩ := q
    by_cases h : shouldEvict cfg now e
    · simp only [cleanupRateLimit, h, if_pos] at hp
      exact List.mem_cons_of_mem _ (ih hp)
    · simp only [cleanupRateLimit, h, if_neg, Bool.false_eq_true,
        not_false_iff] at hp
      rcases List.mem_cons.mp hp with h1 | h1
      · exact h1 ▸ List.mem_cons_self _ _
      · exact List.mem_cons_of_mem _ (ih h1)

theorem storeGet_cleanup (cfg : RateLimitConfig) (now : Int) (s : Store)
    (i : String) (e : RateLimitEntry) (hg : storeGet s i = some e)
    (hk : shouldEvict cfg now e = false) :
    storeGet (cleanupRateLimit cfg now s) i = some e := by
  induction s with
  | nil => simp [storeGet] at hg
  | cons q rest ih =>
    obtain ⟨k, e'⟩ := q
    by_cases h : k = i
    · subst h
      rw [storeGet, if_pos rfl] at hg
      injection hg with hg
      subst hg
      simp [cleanupRateLimit, hk, storeGet]
    · rw [storeGet, if_neg h] at hg
      by_cases hev : shouldEvict cfg now e'
      · simp [cleanupRateLimit, hev, ih hg]
      · simp [cleanupRateLimit, hev, storeGet, h, ih hg]

/-! ## Unfolding lemmas for `recordFailedAttempt` -/

theorem recordFailedAttempt_none (s : Store) (i : String)
    (cfg : RateLimitConfig) (now : Int) (h : storeGet s i = none) :
    recordFailedAttempt i cfg now s =
      storeSet s i ⟨1, now,
        if 1 ≥ cfg.maxAttempts then some (now + cfg.blockDurationMs)
        else none⟩ := by
  simp only [recordFailedAttempt, h, Option.getD]
  split <;> rfl

theorem recordFailedAttempt_inc (s : Store) (i : String)
    (cfg : RateLimitConfig) (now : Int) (a : Nat) (last : Int)
    (bu : Option Int) (h : storeGet s i = some ⟨a, last, bu⟩)
    (hw : ¬ now - last > cfg.windowMs) :
    recordFailedAttempt i cfg now s =
      storeSet s i ⟨a + 1, now,
        if a + 1 ≥ cfg.maxAttempts then some (now + cfg.blockDurationMs)
        else bu⟩ := by
  simp only [recordFailedAttempt, h, Option.getD, if_neg hw]

theorem recordFailedAttempt_reset (s : Store) (i : String)
    (cfg : RateLimitConfig) (now : Int) (a : Nat) (last : Int)
    (bu : Option Int) (h : storeGet s i = some ⟨a, last, bu⟩)
    (hw : now - last > cfg.windowMs) :
    recordFailedAttempt i cfg now s =
      storeSet s i ⟨1, now,
        if 1 ≥ cfg.maxAttempts then some (now + cfg.blockDurationMs)
        else bu⟩ := by
  simp only [recordFailedAttempt, h, Option.getD, if_pos hw]

/-! ## Sequences of failures -/

/-- Record one failure per timestamp in `ts`, in order. -/
def recordMany (identifier : String) (cfg : RateLimitConfig)
    (ts : List Int) (s : Store) : Store :=
  ts.foldl (fun acc t => recordFailedAttempt identifier cfg t acc) s

/-- The time of the last failure: the last element of `ts`, or `last` when
`ts` is empty. -/
def lastTime (last : Int) : List Int → Int
  | [] => last
  | t :: ts => lastTime t ts

/-- Each timestamp is within `w` of its predecessor (the first one being
within `w` of `last`). -/
def chainFrom (last w : Int) : List Int → Bool
  | [] => true
  | t :: ts => decide (t - last ≤ w) && chainFrom t w ts

theorem recordMany_cons (i : String) (cfg : RateLimitConfig) (t : Int)
    (ts : List Int) (s : Store) :
    recordMany i cfg (t :: ts) s =
      recordMany i cfg ts (recordFailedAttempt i cfg t s) := rfl

theorem recordMany_nil (i : String) (cfg : RateLimitConfig) (s : Store) :
    recordMany i cfg [] s = s := rfl

/-- Accumulation: starting from an unblocked entry with `a ≥ 1` failures,
a chain of failures each within the window keeps incrementing the counter;
`blockedUntil` is set exactly when the counter reaches `maxAttempts`. -/
theorem recordMany_accum (cfg : RateLimitConfig) :
    ∀ (ts : List Int) (s : Store) (i : String) (a : Nat) (last : Int),
    storeGet s i = some ⟨a, last, none⟩ →
    chainFrom last cfg.windowMs ts = true →
    1 ≤ a → a < cfg.maxAttempts → a + ts.length ≤ cfg.maxAttempts →
    storeGet (recordMany i cfg ts s) i = some
      ⟨a + ts.length, lastTime last ts,
       if a + ts.length = cfg.maxAttempts then
         some (lastTime last ts + cfg.blockDurationMs)
       else none⟩ := by
  intro ts
  induction ts with
  | nil =>
    intro s i a last hget _ _ hlt _
    simp [recordMany_nil, lastTime, hget, Nat.ne_of_lt hlt]
  | cons t ts' ih =>
    intro s i a last hget hchain ha halt hle
    simp only [chainFrom, Bool.and_eq_true, decide_eq_true_eq] at hchain
    obtain ⟨hgap, hchain'⟩ := hchain
    have hw : ¬ t - last > cfg.windowMs := not_lt.mpr hgap
    rw [recordMany_cons,
      recordFailedAttempt_inc s i cfg t a last none hget hw]
    by_cases hmax : a + 1 ≥ cfg.maxAttempts
    · have hlen0 : ts'.length = 0 := by
        simp only [List.length_cons] at hle
        omega
      have hts' : ts' = [] := List.length_eq_zero.mp hlen0
      subst hts'
      rw [recordMany_nil, if_pos hmax, storeGet_storeSet_self]
      have heq : a + 1 = cfg.maxAttempts := by omega
      simp [lastTime, heq]
    · rw [if_neg hmax]
      have := ih (storeSet s i ⟨a + 1, t, none⟩) i (a + 1) t
        (storeGet_storeSet_self s i _) hchain' (by omega) (by omega)
        (by simp only [List.length_cons] at hle; omega)
      rw [this]
      have hlen : a + 1 + ts'.length = a + (ts'.length + 1) := by omega
      simp [lastTime, hlen]

/-- Below the maximum: with fewer than `maxAttempts` failures in total (at
arbitrary times), the counter stays between 1 and the number of failures
and `blockedUntil` is never set. -/
theorem recordMany_below (cfg : RateLimitConfig) :
    ∀ (ts : List Int) (s : Store) (i : String) (a : Nat) (last : Int),
    storeGet s i = some ⟨a, last, none⟩ →
    1 ≤ a → a + ts.length < cfg.maxAttempts →
    ∃ a', 1 ≤ a' ∧ a' ≤ a + ts.length ∧
      storeGet (recordMany i cfg ts s) i = some ⟨a', lastTime last ts, none⟩ := by
  intro ts
  induction ts with
  | nil =>
    intro s i a last hget ha _
    exact ⟨a, ha, by omega, by simpa [recordMany_nil, lastTime] using hget⟩
  | cons t ts' ih =>
    intro s i a last hget ha hlt
    simp only [List.length_cons] at hlt
    by_cases hw : t - last > cfg.windowMs
    · rw [recordMany_cons,
        recordFailedAttempt_reset s i cfg t a last none hget hw,
        if_neg (by omega : ¬ 1 ≥ cfg.maxAttempts)]
      obtain ⟨a', h1, h2, h3⟩ := ih (storeSet s i ⟨1, t, none⟩) i 1 t
        (storeGet_storeSet_self s i _) (le_refl 1) (by omega)
      exact ⟨a', h1, by simp only [List.length_cons]; omega,
        by simpa [lastTime] using h3⟩
    · rw [recordMany_cons,
        recordFailedAttempt_inc s i cfg t a last none hget hw,
        if_neg (by omega : ¬ a + 1 ≥ cfg.maxAttempts)]
      obtain ⟨a', h1, h2, h3⟩ := ih (storeSet s i ⟨a + 1, t, none⟩) i (a + 1) t
        (storeGet_storeSet_self s i _) (by omega) (by omega)
      exact ⟨a', h1, by simp only [List.length_cons]; omega,
        by simpa [lastTime] using h3⟩

/-! ## C1: block threshold -/

/-- **C1**: for an origin with no prior entry and a config with
`maxAttempts ≥ 1` (here: the failure count equals `maxAttempts`) and
`blockDuration > 0`, recording exactly `maxAttempts` failures, each within
`window` of the previous, makes `isRateLimited` return `true` and
`getTimeUntilUnblocked` return a value strictly greater than `0` at the
time of the last failure. -/
theorem C1_block_threshold (cfg : RateLimitConfig) (s : Store) (i : String)
    (t0 : Int) (rest : List Int)
    (hnone : storeGet s i = none)
    (hchain : chainFrom t0 cfg.windowMs rest = true)
    (hlen : rest.length + 1 = cfg.maxAttempts)
    (hbd : 0 < cfg.blockDurationMs)
    (hT : 0 ≤ lastTime t0 rest) :
    (isRateLimited i cfg (lastTime t0 rest)
        (recordMany i cfg (t0 :: rest) s)).1 = true ∧
    0 < getTimeUntilUnblocked i (lastTime t0 rest)
        (recordMany i cfg (t0 :: rest) s) := by
  have hentry : storeGet (recordMany i cfg (t0 :: rest) s) i =
      some ⟨cfg.maxAttempts, lastTime t0 rest,
        some (lastTime t0 rest + cfg.blockDurationMs)⟩ := by
    by_cases hm : cfg.maxAttempts = 1
    · have hrest : rest = [] := List.length_eq_zero.mp (by omega)
      subst hrest
      rw [recordMany_cons, recordMany_nil,
        recordFailedAttempt_none s i cfg t0 hnone,
        storeGet_storeSet_self, if_pos (by omega)]
      simp [lastTime, hm]
    · have hs1 : storeGet (recordFailedAttempt i cfg t0 s) i =
          some ⟨1, t0, none⟩ := by
        rw [recordFailedAttempt_none s i cfg t0 hnone,
          storeGet_storeSet_self, if_neg (by omega)]
      have hsum : 1 + rest.length = cfg.maxAttempts := by omega
      rw [recordMany_cons,
        recordMany_accum cfg rest _ i 1 t0 hs1 hchain (le_refl 1)
          (by omega) (by omega), if_pos (by omega), hsum]
  have hba : blockActive
      (some (lastTime t0 rest + cfg.blockDurationMs)) (lastTime t0 rest)
      = true := by
    simp only [blockActive, decide_eq_true_eq]
    omega
  refine ⟨?_, ?_⟩
  · simp [isRateLimited, hentry, hba]
  · have hz : ¬ (lastTime t0 rest + cfg.blockDurationMs = 0) := by omega
    simp only [getTimeUntilUnblocked, hentry, if_neg hz]
    omega

/-- Witness for C1 at `maxAttempts = 2`, `windowMs = 10`,
`blockDurationMs = 5`, failures at times `0` and `3`. -/
theorem C1_block_threshold_witness :
    (isRateLimited "ip" ⟨2, 10, 5⟩ (lastTime 0 [3])
        (recordMany "ip" ⟨2, 10, 5⟩ [0, 3] [])).1 = true ∧
    0 < getTimeUntilUnblocked "ip" (lastTime 0 [3])
        (recordMany "ip" ⟨2, 10, 5⟩ [0, 3] []) :=
  C1_block_threshold ⟨2, 10, 5⟩ [] "ip" 0 [3] rfl (by decide) (by decide)
    (by decide) (by decide)

/-! ## C7: sliding window reset -/

/-- **C7**: with `maxAttempts ≥ 2` (here `rest.length + 2 = maxAttempts`
failures are recorded, i.e. `maxAttempts - 1` of them), waiting strictly
longer than `window` after the last of them and recording one more failure
leaves the entry with `attempts = 1` (not `maxAttempts`), and the origin
is not blocked. -/
theorem C7_sliding_window_reset (cfg : RateLimitConfig) (s : Store)
    (i : String) (t0 T : Int) (rest : List Int)
    (hnone : storeGet s i = none)
    (hlen : rest.length + 2 = cfg.maxAttempts)
    (hgap : T - lastTime t0 rest > cfg.windowMs) :
    storeGet (recordFailedAttempt i cfg T
        (recordMany i cfg (t0 :: rest) s)) i = some ⟨1, T, none⟩ ∧
    (isRateLimited i cfg T (recordFailedAttempt i cfg T
        (recordMany i cfg (t0 :: rest) s))).1 = false := by
  have hs1 : storeGet (recordFailedAttempt i cfg t0 s) i =
      some ⟨1, t0, none⟩ := by
    rw [recordFailedAttempt_none s i cfg t0 hnone,
      storeGet_storeSet_self, if_neg (by omega)]
  obtain ⟨a', h1, h2, h3⟩ := recordMany_below cfg rest _ i 1 t0 hs1
    (le_refl 1) (by omega)
  have hentry : storeGet (recordFailedAttempt i cfg T
      (recordMany i cfg (t0 :: rest) s)) i = some ⟨1, T, none⟩ := by
    rw [recordMany_cons,
      recordFailedAttempt_reset _ i cfg T a' (lastTime t0 rest) none h3 hgap,
      storeGet_storeSet_self, if_neg (by omega)]
  have h5 : ¬ (1 ≥ cfg.maxAttempts) := by omega
  refine ⟨hentry, ?_⟩
  simp only [isRateLimited, hentry]
  rw [if_neg (by simp [blockActive])]
  split
  · rfl
  · simp [h5]

/-- Witness for C7 at `maxAttempts = 2`, `windowMs = 10`: one failure at
time `0`, then a failure at time `100`. -/
theorem C7_sliding_window_reset_witness :
    storeGet (recordFailedAttempt "ip" ⟨2, 10, 5⟩ 100
        (recordMany "ip" ⟨2, 10, 5⟩ [0] [])) "ip" = some ⟨1, 100, none⟩ ∧
    (isRateLimited "ip" ⟨2, 10, 5⟩ 100 (recordFailedAttempt "ip" ⟨2, 10, 5⟩ 100
        (recordMany "ip" ⟨2, 10, 5⟩ [0] []))).1 = false :=
  C7_sliding_window_reset ⟨2, 10, 5⟩ [] "ip" 0 100 [] rfl (by decide)
    (by decide)

/-! ## C5: the read path is not pure -/

/-- **C5 counterexample**: with the default config, reading a stale entry
(`lastAttempt = 0`, checked at `now = 900001 > windowMs`) deletes the
entry — the store is not left unchanged by `isRateLimited`. -/
theorem C5_counterexample :
    (isRateLimited "ip" DEFAULT_CONFIG 900001 [("ip", ⟨1, 0, none⟩)]).2
      = ([] : Store) ∧
    ([] : Store) ≠ [("ip", ⟨1, 0, none⟩)] := by decide

/-- **C5 (amended)**: `isRateLimited` leaves the store unchanged except
when the identifier's entry exists, is not under an active block, and is
stale (`now - lastAttempt > window`): in that case the read reports not
blocked and deletes the entry. -/
theorem C5_isBlocked_read_effect (i : String) (cfg : RateLimitConfig)
    (now : Int) (s : Store) :
    (isRateLimited i cfg now s).2 = s ∨
    ((isRateLimited i cfg now s).1 = false ∧
     (isRateLimited i cfg now s).2 = storeDelete s i ∧
     ∃ e, storeGet s i = some e ∧ blockActive e.blockedUntil now = false ∧
       now - e.lastAttempt > cfg.windowMs) := by
  cases hget : storeGet s i with
  | none => left; simp [isRateLimited, hget]
  | some e =>
    by_cases hb : blockActive e.blockedUntil now
    · left; simp [isRateLimited, hget, hb]
    · by_cases hwin : now - e.lastAttempt > cfg.windowMs
      · right
        refine ⟨?_, ?_, e, rfl, Bool.eq_false_iff.mpr hb, hwin⟩ <;>
          simp [isRateLimited, hget, hb, hwin]
      · left; simp [isRateLimited, hget, hb, hwin]

/-! ## C6: block expiry -/

/-- **C6 counterexample**: config `maxAttempts = 1, window = 1000,
blockDuration = 500`.  A failure at time `0` blocks the origin until
`500`, yet at time `501` — strictly after the block expiry —
`isRateLimited` still returns `true`, because the window has not elapsed
and `attempts ≥ maxAttempts`. -/
theorem C6_counterexample :
    (isRateLimited "ip" ⟨1, 1000, 500⟩ 501
        (recordFailedAttempt "ip" ⟨1, 1000, 500⟩ 0 [])).1 = true := by decide

/-- **C6 (amended)**: for an origin blocked by a failure at time `t`
(`attempts ≥ maxAttempts`, `blockedUntil = t + blockDuration`), at any
time strictly after `t + blockDuration` the origin is still reported
blocked iff the window has not elapsed (`now - t ≤ window`); in
particular, for configs with `blockDuration ≥ window` (such as the
default) it is reported unblocked.  When still within the window the
store is unchanged (the entry, with its accumulated `attempts`, is
preserved); once the window has elapsed the read deletes the entry. -/
theorem C6_block_expiry (i : String) (cfg : RateLimitConfig) (now t : Int)
    (s : Store) (e : RateLimitEntry) (hget : storeGet s i = some e)
    (hla : e.lastAttempt = t)
    (hbu : e.blockedUntil = some (t + cfg.blockDurationMs))
    (hatt : e.attempts ≥ cfg.maxAttempts)
    (hnow : now > t + cfg.blockDurationMs) :
    (isRateLimited i cfg now s).1 = decide (now - t ≤ cfg.windowMs) ∧
    (now - t ≤ cfg.windowMs → (isRateLimited i cfg now s).2 = s) := by
  have hba : blockActive e.blockedUntil now = false := by
    rw [hbu]
    simp only [blockActive, decide_eq_false_iff_not]
    intro hcon
    omega
  constructor
  · simp only [isRateLimited, hget]
    rw [if_neg (by simp [hba])]
    split
    · have hnl : ¬ (now - t ≤ cfg.windowMs) := by omega
      simp [hnl]
    · have hl : now - t ≤ cfg.windowMs := by omega
      simp [hatt, hl]
  · intro hwin
    simp only [isRateLimited, hget]
    rw [if_neg (by simp [hba]), if_neg (by omega)]

/-- Witness for C6 with `blockDuration ≥ window` (`window = 10`,
`blockDuration = 20`): at time `21`, strictly after the block expiry at
`20`, the origin is reported blocked iff `21 ≤ 10`, i.e. not blocked. -/
theorem C6_block_expiry_witness :
    (isRateLimited "ip" ⟨1, 10, 20⟩ 21 [("ip", ⟨1, 0, some 20⟩)]).1
      = decide ((21 : Int) - 0 ≤ 10) :=
  (C6_block_expiry "ip" ⟨1, 10, 20⟩ 21 0 [("ip", ⟨1, 0, some 20⟩)]
    ⟨1, 0, some 20⟩ (by decide) rfl rfl (by decide) (by decide)).1

/-! ## C9: boundary tie-break -/

/-- **C9 counterexample**: config `window = 100`; after a failure at time
`0`, a failure arriving exactly at the window boundary (`now = 100`,
`now - lastAttempt = window`) is NOT treated as expired: `attempts`
becomes `2`, not `1`. -/
theorem C9_counterexample :
    storeGet (recordFailedAttempt "ip" ⟨5, 100, 200⟩ 100
        (recordFailedAttempt "ip" ⟨5, 100, 200⟩ 0 [])) "ip"
      = some ⟨2, 100, none⟩ ∧
    storeGet (recordFailedAttempt "ip" ⟨5, 100, 200⟩ 100
        (recordFailedAttempt "ip" ⟨5, 100, 200⟩ 0 [])) "ip"
      ≠ some ⟨1, 100, none⟩ := by decide

/-- **C9 (amended)**: the strict comparison `now - lastAttempt > window`
is applied uniformly, so exact boundaries count as NOT expired:
a failure arriving exactly at the window boundary increments `attempts`
(it does not reset to 1); a check exactly at the block boundary
(`now = blockedUntil`) no longer takes the active-block branch, but still
reports blocked when the window has not strictly elapsed and
`attempts ≥ maxAttempts`; and `cleanupRateLimit` keeps an entry whose
last attempt is exactly `window` old. -/
theorem C9_boundary_policy (i : String) (cfg : RateLimitConfig) (now : Int)
    (s : Store) (e : RateLimitEntry) (hget : storeGet s i = some e) :
    (now - e.lastAttempt = cfg.windowMs →
      storeGet (recordFailedAttempt i cfg now s) i = some
        ⟨e.attempts + 1, now,
         if e.attempts + 1 ≥ cfg.maxAttempts then
           some (now + cfg.blockDurationMs)
         else e.blockedUntil⟩) ∧
    (e.blockedUntil = some now →
      (isRateLimited i cfg now s).1 =
        (decide (¬ now - e.lastAttempt > cfg.windowMs) &&
         decide (e.attempts ≥ cfg.maxAttempts))) ∧
    (now - e.lastAttempt = cfg.windowMs →
      storeGet (cleanupRateLimit cfg now s) i = some e) := by
  refine ⟨?_, ?_, ?_⟩
  · intro hb
    rw [recordFailedAttempt_inc s i cfg now e.attempts e.lastAttempt
      e.blockedUntil hget (by omega), storeGet_storeSet_self]
  · intro hbu
    have hba : blockActive e.blockedUntil now = false := by
      rw [hbu]
      simp only [blockActive, decide_eq_false_iff_not]
      intro hcon
      omega
    simp only [isRateLimited, hget]
    rw [if_neg (by simp [hba])]
    split
    · rename_i h
      simp [h]
    · rename_i h
      simp [h]
  · intro hb
    refine storeGet_cleanup cfg now s i e hget ?_
    unfold shouldEvict
    cases e.blockedUntil <;> simp <;> omega

/-- Witness for C9 at `window = 100`: entry `⟨1, 0, some 100⟩`, checked
and written exactly at time `100`. -/
theorem C9_boundary_policy_witness :
    storeGet (recordFailedAttempt "ip" ⟨5, 100, 200⟩ 100
        [("ip", ⟨1, 0, some 100⟩)]) "ip" =
      some ⟨1 + 1, 100, if 1 + 1 ≥ 5 then some (100 + 200) else some 100⟩ ∧
    (isRateLimited "ip" ⟨5, 100, 200⟩ 100 [("ip", ⟨1, 0, some 100⟩)]).1 =
      (decide (¬ (100 : Int) - 0 > 100) && decide (1 ≥ 5)) ∧
    storeGet (cleanupRateLimit ⟨5, 100, 200⟩ 100 [("ip", ⟨1, 0, some 100⟩)])
        "ip" = some ⟨1, 0, some 100⟩ := by
  have h := C9_boundary_policy "ip" ⟨5, 100, 200⟩ 100
    [("ip", ⟨1, 0, some 100⟩)] ⟨1, 0, some 100⟩ (by decide)
  exact ⟨h.1 (by decide), h.2.1 (by decide), h.2.2 (by decide)⟩

/-! ## C10: read consistency -/

/-- **C10**: for every store state, identifier and config override, if
`getTimeUntilUnblocked` is strictly positive then `isRateLimited` at the
same instant returns `true`. -/
theorem C10_read_consistency (i : String) (cfg : RateLimitConfig)
    (now : Int) (s : Store)
    (h : 0 < getTimeUntilUnblocked i now s) :
    (isRateLimited i cfg now s).1 = true := by
  cases hget : storeGet s i with
  | none => simp only [getTimeUntilUnblocked, hget] at h; simp at h
  | some e =>
    simp only [getTimeUntilUnblocked, hget] at h
    cases hbu : e.blockedUntil with
    | none => simp [hbu] at h
    | some b =>
      simp only [hbu] at h
      by_cases hz : b = 0
      · rw [if_pos hz] at h
        simp at h
      · rw [if_neg hz] at h
        have hba : blockActive e.blockedUntil now = true := by
          rw [hbu]
          simp only [blockActive, decide_eq_true_eq]
          exact ⟨hz, by omega⟩
        simp [isRateLimited, hget, hba]

/-- Witness for C10: a blocked entry (`blockedUntil = 100`) read at
time `50`. -/
theorem C10_read_consistency_witness :
    0 < getTimeUntilUnblocked "ip" 50 [("ip", ⟨5, 0, some 100⟩)] ∧
    (isRateLimited "ip" DEFAULT_CONFIG 50 [("ip", ⟨5, 0, some 100⟩)]).1
      = true :=
  ⟨by decide, C10_read_consistency "ip" DEFAULT_CONFIG 50
    [("ip", ⟨5, 0, some 100⟩)] (by decide)⟩

/-! ## C8: the `blockedUntil > lastAttempt` invariant -/

/-- One call against the rate limiter, tagged with the time at which the
source would read `Date.now()`. -/
inductive RateOp where
  | fail (identifier : String) (t : Int)
  | success (identifier : String)
  | check (identifier : String) (t : Int)
  | timeLeft (identifier : String) (t : Int)
  | cleanup (t : Int)

/-- The store mutation performed by one call (`timeLeft` is a pure read;
`check` deletes stale entries). -/
def execOp (cfg : RateLimitConfig) (s : Store) : RateOp → Store
  | .fail i t => recordFailedAttempt i cfg t s
  | .success i => recordSuccessfulAttempt i s
  | .check i t => (isRateLimited i cfg t s).2
  | .timeLeft _ _ => s
  | .cleanup t => cleanupRateLimit cfg t s

/-- Run a sequence of calls against the store. -/
def execOps (cfg : RateLimitConfig) (ops : List RateOp) (s : Store) : Store :=
  ops.foldl (execOp cfg) s

/-- The invariant claimed by the spec, per entry: `blockedUntil`, when
present, is strictly greater than `lastAttempt`. -/
def entryBlockInvB (e : RateLimitEntry) : Bool :=
  match e.blockedUntil with
  | none => true
  | some b => decide (e.lastAttempt < b)

/-- The claimed invariant over the whole store. -/
def storeBlockInvB (s : Store) : Bool := s.all fun p => entryBlockInvB p.2

theorem isRateLimited_snd_sub (i : String) (cfg : RateLimitConfig)
    (now : Int) (s : Store) :
    (isRateLimited i cfg now s).2 = s ∨
    (isRateLimited i cfg now s).2 = storeDelete s i := by
  unfold isRateLimited
  cases storeGet s i with
  | none => left; rfl
  | some e =>
    by_cases hb : blockActive e.blockedUntil now
    · left; simp [hb]
    · by_cases hw : now - e.lastAttempt > cfg.windowMs
      · right; simp [hb, hw]
      · left; simp [hb, hw]

theorem mem_isRateLimited_snd (i : String) (cfg : RateLimitConfig)
    (now : Int) (s : Store) (p : String × RateLimitEntry)
    (hp : p ∈ (isRateLimited i cfg now s).2) : p ∈ s := by
  rcases isRateLimited_snd_sub i cfg now s with h | h
  · rwa [h] at hp
  · rw [h] at hp
    exact mem_storeDelete _ _ _ hp

theorem recordFailedAttempt_cases (s : Store) (i : String)
    (cfg : RateLimitConfig) (now : Int) :
    ∃ a bu, recordFailedAttempt i cfg now s = storeSet s i ⟨a, now, bu⟩ ∧
      (cfg.maxAttempts ≤ a → bu = some (now + cfg.blockDurationMs)) := by
  cases hget : storeGet s i with
  | none =>
    refine ⟨1, _, recordFailedAttempt_none s i cfg now hget, ?_⟩
    intro h
    rw [if_pos h]
  | some e =>
    by_cases hw : now - e.lastAttempt > cfg.windowMs
    · refine ⟨1, _, recordFailedAttempt_reset s i cfg now e.attempts
        e.lastAttempt e.blockedUntil hget hw, ?_⟩
      intro h
      rw [if_pos h]
    · refine ⟨e.attempts + 1, _, recordFailedAttempt_inc s i cfg now e.attempts
        e.lastAttempt e.blockedUntil hget hw, ?_⟩
      intro h
      rw [if_pos h]

theorem execOp_blockInv (cfg : RateLimitConfig)
    (hbd : 0 < cfg.blockDurationMs) (s : Store)
    (hs : ∀ p ∈ s, ∀ b, p.2.blockedUntil = some b →
      cfg.maxAttempts ≤ p.2.attempts → p.2.lastAttempt < b)
    (op : RateOp) :
    ∀ p ∈ execOp cfg s op, ∀ b, p.2.blockedUntil = some b →
      cfg.maxAttempts ≤ p.2.attempts → p.2.lastAttempt < b := by
  intro p hp b hbu hmax
  cases op with
  | fail i t =>
    obtain ⟨a, bu, heq, hblock⟩ := recordFailedAttempt_cases s i cfg t
    simp only [execOp] at hp
    rw [heq] at hp
    rcases mem_storeSet _ _ _ _ hp with h | h
    · exact hs p h b hbu hmax
    · subst h
      have hbu' : bu = some b := hbu
      have hmax' : cfg.maxAttempts ≤ a := hmax
      rw [hblock hmax'] at hbu'
      injection hbu' with h2
      show t < b
      omega
  | success i =>
    simp only [execOp, recordSuccessfulAttempt] at hp
    exact hs p (mem_storeDelete _ _ _ hp) b hbu hmax
  | check i t =>
    simp only [execOp] at hp
    exact hs p (mem_isRateLimited_snd _ _ _ _ _ hp) b hbu hmax
  | timeLeft i t =>
    simp only [execOp] at hp
    exact hs p hp b hbu hmax
  | cleanup t =>
    simp only [execOp] at hp
    exact hs p (mem_cleanup _ _ _ _ hp) b hbu hmax

/-- **C8 counterexample**: config `maxAttempts = 2, window = 10,
blockDuration = 20`.  Failures at times `0` and `1` block the origin
(`blockedUntil = 21`); a third failure at time `30` resets `attempts` to
`1` and stamps `lastAttempt = 30` but does not clear `blockedUntil = 21`,
so the reachable store violates `blockedUntil > lastAttempt`. -/
theorem C8_counterexample :
    execOps ⟨2, 10, 20⟩ [.fail "ip" 0, .fail "ip" 1, .fail "ip" 30] []
      = [("ip", ⟨1, 30, some 21⟩)] ∧
    storeBlockInvB [("ip", ⟨1, 30, some 21⟩)] = false := by decide

/-- **C8 (amended)**: in every store state reachable by a finite sequence
of rate-limiter calls under a config with `blockDuration > 0`, every
entry whose `blockedUntil` is present AND whose `attempts` still reaches
`maxAttempts` satisfies `blockedUntil > lastAttempt`.  (An entry whose
counter was reset by the sliding window can retain a stale `blockedUntil`
at or below `lastAttempt`, as the counterexample shows.) -/
theorem C8_block_invariant (cfg : RateLimitConfig)
    (hbd : 0 < cfg.blockDurationMs) (ops : List RateOp) :
    ∀ p ∈ execOps cfg ops [], ∀ b, p.2.blockedUntil = some b →
      cfg.maxAttempts ≤ p.2.attempts → p.2.lastAttempt < b := by
  suffices h : ∀ (l : List RateOp) (s : Store),
      (∀ p ∈ s, ∀ b, p.2.blockedUntil = some b →
        cfg.maxAttempts ≤ p.2.attempts → p.2.lastAttempt < b) →
      ∀ p ∈ execOps cfg l s, ∀ b, p.2.blockedUntil = some b →
        cfg.maxAttempts ≤ p.2.attempts → p.2.lastAttempt < b by
    exact h ops [] (by simp)
  intro l
  induction l with
  | nil =>
    intro s hs
    simpa [execOps] using hs
  | cons op rest ih =>
    intro s hs
    exact ih (execOp cfg s op) (execOp_blockInv cfg hbd s hs op)

/-- Witness for C8: one failure at time `0` with `maxAttempts = 1`
produces the entry `⟨1, 0, some 20⟩`, and the invariant gives `0 < 20`. -/
theorem C8_block_invariant_witness :
    ("ip", (⟨1, 0, some 20⟩ : RateLimitEntry)) ∈
      execOps ⟨1, 10, 20⟩ [.fail "ip" 0] [] ∧ (0 : Int) < 20 :=
  ⟨by decide, C8_block_invariant ⟨1, 10, 20⟩ (by decide) [.fail "ip" 0]
    ("ip", ⟨1, 0, some 20⟩) (by decide) 20 rfl (by decide)⟩

/-! ## The authenticator: `authenticateUser` and the route procedure

`authenticateUser` (user.service.ts) is embedded as a function of the
database lookup result and of the hasher, both passed as oracles: the
lookup result is the `findFirst` row (or `none`), and
`verify : String → String → HashOutcome` is `verifyPassword`, which
either resolves to a boolean or throws (resource exhaustion).  The
embedding additionally returns the list of `(plaintext, hash)` arguments
passed to the hasher, so call counts are part of the state. -/

structure UserRecord where
  id : String
  name : String
  email : String
  avatar : Option String
  password : String
deriving DecidableEq, Repr

/-- The row with the `password` column stripped
(`const { password, ...userWithoutPassword } = result`). -/
structure UserPublic where
  id : String
  name : String
  email : String
  avatar : Option String
deriving DecidableEq, Repr

def stripPassword (u : UserRecord) : UserPublic := ⟨u.id, u.name, u.email, u.avatar⟩

/-- A `TRPCError`: code and message. -/
structure TrpcError where
  code : String
  message : String
deriving DecidableEq, Repr

/-- The uniform authentication failure thrown by `authenticateUser`. -/
def unauthorizedError : TrpcError := ⟨"UNAUTHORIZED", "Invalid email or password"⟩

/-- What a thrown `verifyPassword` error becomes: `authenticateUser`'s
catch passes the non-`TRPCError` to `handleDatabaseError(error, 'user')`
(trpc-errors.ts), whose message `failed to verify password: …` matches no
database constraint pattern, so the generic branch throws
`INTERNAL_SERVER_ERROR` with this message. -/
def verifyInternalError : TrpcError :=
  ⟨"INTERNAL_SERVER_ERROR", "Database error while processing user"⟩

/-- Result of one `verifyPassword` call: a resolved boolean, or a thrown
resource-exhaustion error. -/
inductive HashOutcome where
  | ok (valid : Bool)
  | failure
deriving DecidableEq, Repr

/-- The fixed dummy hash used when no user record exists. -/
def DUMMY_HASH : String := "$2b$12$dummyhashtopreventtimingattacks.invalid"

/-- `result?.password || '…dummy…'`: the stored hash when the record
exists and its password is truthy (non-empty), the dummy hash otherwise. -/
def passwordToVerify : Option UserRecord → String
  | some u => if u.password = "" then DUMMY_HASH else u.password
  | none => DUMMY_HASH

/-- `authenticateUser` from user.service.ts.  Returns the outcome and the
list of hasher invocations (argument pairs, in order). -/
def authenticateUser (verify : String → String → HashOutcome)
    (findResult : Option UserRecord) (plainPassword : String) :
    Except TrpcError UserPublic × List (String × String) :=
  let pw := passwordToVerify findResult
  match verify plainPassword pw with
  | .failure => (.error verifyInternalError, [(plainPassword, pw)])
  | .ok isValid =>
    match findResult with
    | none => (.error unauthorizedError, [(plainPassword, pw)])
    | some u =>
      if isValid then (.ok (stripPassword u), [(plainPassword, pw)])
      else (.error unauthorizedError, [(plainPassword, pw)])

/-- Outcome of the route's `authenticate` procedure. -/
inductive RouteOutcome where
  | ok (u : UserPublic)
  | err (e : TrpcError)
  | tooManyRequests (minutesRemaining : Int)
deriving DecidableEq, Repr

/-- Observable result of one `authenticate` call: the outcome, the store
after the call, and how often each collaborator was invoked. -/
structure RouteResult where
  outcome : RouteOutcome
  store : Store
  lookupCalls : Nat
  verifyCalls : List (String × String)
  recordFailedCalls : Nat
  recordSuccessCalls : Nat
deriving DecidableEq, Repr

/-- `Math.ceil(ms / (1000 * 60))` for the nonnegative values produced by
`getTimeUntilUnblocked`. -/
def minutesRemaining (ms : Int) : Int := (ms + 59999) / 60000

/-- The `authenticate` procedure from user.route.ts: rate-limit pre-check
(default config), fail fast with `TOO_MANY_REQUESTS` when limited,
otherwise run `authenticateUser`, recording a success or a failure —
the catch block records a failed attempt for EVERY thrown error. -/
def authenticate (verify : String → String → HashOutcome)
    (findResult : Option UserRecord) (plainPassword clientIP : String)
    (now : Int) (s : Store) : RouteResult :=
  let checked := isRateLimited clientIP DEFAULT_CONFIG now s
  if checked.1 then
    ⟨.tooManyRequests (minutesRemaining
        (getTimeUntilUnblocked clientIP now checked.2)),
      checked.2, 0, [], 0, 0⟩
  else
    let r := authenticateUser verify findResult plainPassword
    match r.1 with
    | .ok u => ⟨.ok u, recordSuccessfulAttempt clientIP checked.2, 1, r.2, 0, 1⟩
    | .error e =>
      ⟨.err e, recordFailedAttempt clientIP DEFAULT_CONFIG now checked.2,
        1, r.2, 1, 0⟩

/-! ## C2: timing-uniform failure masking -/

/-- **C2**: authenticating a non-existent identifier and authenticating an
existing identifier with a wrong password each invoke the hasher exactly
once — with the dummy hash substituted when no record exists — and both
fail with the identical `UNAUTHORIZED` error code and message. -/
theorem C2_timing_uniform_failure (verify : String → String → HashOutcome)
    (plain : String) (u : UserRecord) (hpw : u.password ≠ "")
    (hwrong : verify plain u.password = .ok false)
    (hdummy : verify plain DUMMY_HASH = .ok false) :
    authenticateUser verify none plain =
      (.error unauthorizedError, [(plain, DUMMY_HASH)]) ∧
    authenticateUser verify (some u) plain =
      (.error unauthorizedError, [(plain, u.password)]) := by
  constructor
  · simp [authenticateUser, passwordToVerify, hdummy]
  · simp [authenticateUser, passwordToVerify, hpw, hwrong]

/-- Witness for C2: a hasher that rejects, a record with a non-empty
stored hash, and the absent-record case. -/
theorem C2_timing_uniform_failure_witness :
    (⟨"u1", "Name", "a@b.c", none, "storedhash"⟩ : UserRecord).password ≠ "" ∧
    authenticateUser (fun _ _ => HashOutcome.ok false) none "pw" =
      (.error unauthorizedError, [("pw", DUMMY_HASH)]) ∧
    authenticateUser (fun _ _ => HashOutcome.ok false)
        (some ⟨"u1", "Name", "a@b.c", none, "storedhash"⟩) "pw" =
      (.error unauthorizedError, [("pw", "storedhash")]) := by
  have h := C2_timing_uniform_failure (fun _ _ => HashOutcome.ok false) "pw"
    ⟨"u1", "Name", "a@b.c", none, "storedhash"⟩ (by decide) rfl rfl
  exact ⟨by decide, h.1, h.2⟩

/-! ## C4: fail-fast on block -/

theorem isRateLimited_limited_snd (i : String) (cfg : RateLimitConfig)
    (now : Int) (s : Store)
    (h : (isRateLimited i cfg now s).1 = true) :
    (isRateLimited i cfg now s).2 = s := by
  revert h
  unfold isRateLimited
  cases storeGet s i with
  | none => intro h; simp at h
  | some e =>
    by_cases hb : blockActive e.blockedUntil now
    · intro _
      simp [hb]
    · by_cases hw : now - e.lastAttempt > cfg.windowMs
      · intro h
        simp [hb, hw] at h
      · intro _
        simp [hb, hw]

/-- **C4**: when the origin is blocked at entry, `authenticate` fails with
`TOO_MANY_REQUESTS` carrying the remaining block duration (rounded up to
minutes), without invoking the lookup or the hasher, without recording a
failure or a success, and with the store unchanged. -/
theorem C4_fail_fast_on_block (verify : String → String → HashOutcome)
    (findResult : Option UserRecord) (plain clientIP : String) (now : Int)
    (s : Store)
    (hblocked : (isRateLimited clientIP DEFAULT_CONFIG now s).1 = true) :
    authenticate verify findResult plain clientIP now s =
      ⟨.tooManyRequests (minutesRemaining
          (getTimeUntilUnblocked clientIP now s)), s, 0, [], 0, 0⟩ := by
  have hsnd := isRateLimited_limited_snd clientIP DEFAULT_CONFIG now s hblocked
  simp [authenticate, hblocked, hsnd]

/-- Witness for C4: an origin blocked until time `1000`, checked at `10`;
the call returns `TOO_MANY_REQUESTS` and touches nothing. -/
theorem C4_fail_fast_on_block_witness :
    authenticate (fun _ _ => HashOutcome.ok true) none "pw" "ip" 10
        [("ip", ⟨5, 0, some 1000⟩)] =
      ⟨.tooManyRequests (minutesRemaining
          (getTimeUntilUnblocked "ip" 10 [("ip", ⟨5, 0, some 1000⟩)])),
        [("ip", ⟨5, 0, some 1000⟩)], 0, [], 0, 0⟩ :=
  C4_fail_fast_on_block (fun _ _ => HashOutcome.ok true) none "pw" "ip" 10
    [("ip", ⟨5, 0, some 1000⟩)] (by decide)

/-! ## C3: hashing failures ARE counted against the origin -/

/-- **C3 counterexample**: a hasher failure during `authenticate`
propagates as `INTERNAL_SERVER_ERROR` (distinct from `UNAUTHORIZED`), but
the route's catch block still invokes `recordFailedAttempt`: the failure
count for the origin IS incremented. -/
theorem C3_counterexample :
    (authenticate (fun _ _ => HashOutcome.failure)
        (some ⟨"u1", "Name", "a@b.c", none, "hash"⟩) "pw" "ip" 0 []).outcome
      = .err verifyInternalError ∧
    verifyInternalError ≠ unauthorizedError ∧
    (authenticate (fun _ _ => HashOutcome.failure)
        (some ⟨"u1", "Name", "a@b.c", none, "hash"⟩) "pw" "ip" 0
        []).recordFailedCalls = 1 ∧
    (authenticate (fun _ _ => HashOutcome.failure)
        (some ⟨"u1", "Name", "a@b.c", none, "hash"⟩) "pw" "ip" 0 []).store
      = [("ip", ⟨1, 0, none⟩)] := by decide

/-- **C3 (amended)**: when the hasher fails with an operational error and
the origin is not blocked, the error propagates as
`INTERNAL_SERVER_ERROR`, distinct from `UNAUTHORIZED` — but the route's
blanket catch records a rate-limiter failure for the origin
(`recordFailedCalls = 1` and the store is updated by
`recordFailedAttempt`), contrary to the claim's second half. -/
theorem C3_hashing_failure_recorded (verify : String → String → HashOutcome)
    (findResult : Option UserRecord) (plain clientIP : String) (now : Int)
    (s : Store)
    (hnb : (isRateLimited clientIP DEFAULT_CONFIG now s).1 = false)
    (hfail : verify plain (passwordToVerify findResult) = .failure) :
    (authenticate verify findResult plain clientIP now s).outcome
      = .err verifyInternalError ∧
    verifyInternalError.code ≠ unauthorizedError.code ∧
    (authenticate verify findResult plain clientIP now s).recordFailedCalls
      = 1 ∧
    (authenticate verify findResult plain clientIP now s).store
      = recordFailedAttempt clientIP DEFAULT_CONFIG now
          (isRateLimited clientIP DEFAULT_CONFIG now s).2 := by
  refine ⟨?_, by decide, ?_, ?_⟩ <;>
    simp [authenticate, authenticateUser, hnb, hfail]

/-- Witness for C3 (amended): a failing hasher on an unknown identifier
with an empty store. -/
theorem C3_hashing_failure_recorded_witness :
    (authenticate (fun _ _ => HashOutcome.failure) none "pw" "ip" 5
        []).outcome = .err verifyInternalError ∧
    verifyInternalError.code ≠ unauthorizedError.code ∧
    (authenticate (fun _ _ => HashOutcome.failure) none "pw" "ip" 5
        []).recordFailedCalls = 1 ∧
    (authenticate (fun _ _ => HashOutcome.failure) none "pw" "ip" 5 []).store
      = recordFailedAttempt "ip" DEFAULT_CONFIG 5
          (isRateLimited "ip" DEFAULT_CONFIG 5 []).2 :=
  C3_hashing_failure_recorded (fun _ _ => HashOutcome.failure) none "pw" "ip"
    5 [] (by decide) rfl
